import Mathlib

/-!
Shallow embedding of the cache-strategy layer (`CacheService`, src/backend/config/redis.js).

The embedded code is the `CacheService` class: the five read/write strategies
(`cacheAside`, `readThrough`, `writeThrough`, `writeAround`, `writeBack`), the
LRU/LFU eviction operations (`lruGet`, `lruSet`, `lfuGet`, `lfuSet`) and the
statistics reader (`getStats`).

Modelling choices:

* Values are JSON-like trees (`JsVal`).  The service always stores
  `JSON.stringify(v)` and reads back with `JSON.parse`; since `JSON.stringify`
  of a defined value is a non-empty (hence truthy) string and the round trip is
  the identity on JSON trees, the store keeps the `JsVal` payload directly and
  "entry present" coincides with "the fetched string is truthy".
* The service uses exactly three non-string structures, under the fixed key
  names `lru_access` (sorted set), `lfu_frequency` (sorted set) and
  `dirty_keys` (set).  They are modelled as dedicated fields of the store
  state; cache keys are taken from the flat string namespace, assumed disjoint
  from those three fixed names (the service itself never writes a string entry
  under them).
* `Date.now()` is a monotonic clock: each read returns the current `now` and
  advances it, so successive accesses get strictly increasing timestamps.
* Every `cacheClient` round trip can fail (store unreachable).  Failures are
  injected by a schedule `faults : List Bool`: each primitive consumes one
  flag and throws when the flag is `true`; an exhausted schedule means every
  remaining operation succeeds.  JS exceptions are `Except.error ()`; state
  mutations made before a throw persist (no rollback), so every operation
  returns `Except Unit α × Store`.
* The `dataFetcher` / `dbWriter` callbacks hit the authoritative backend, not
  the cache, so they are modelled as fallible pure computations
  (`Except Unit JsVal`, resp. `JsVal → Except Unit JsVal`).
* `setTimeout` in `writeBack` schedules work for later: `writeBack` returns the
  list of scheduled deferred writes alongside its result, and `runPending`
  executes one such deferred write (the body of the `setTimeout` callback).
-/

/-- JSON-serializable values (the payloads the service caches; atomic values
suffice for the cache-layer behavior, which never inspects payload
structure). -/
inductive JsVal where
  | vNull : JsVal
  | vBool (b : Bool) : JsVal
  | vNum (n : Int) : JsVal
  | vStr (s : String) : JsVal
  deriving DecidableEq, Repr

/-- JavaScript truthiness of a value (used by `if (data)` guards on loader
results). -/
def JsVal.truthy : JsVal → Bool
  | .vNull => false
  | .vBool b => b
  | .vNum n => n != 0
  | .vStr s => !s.isEmpty

/-- A string entry of the store: the cached payload together with the expiry
`ttl` it was stored with (`SETEX`); expiry itself is enforced by the store,
outside the cache layer. -/
structure Entry where
  value : JsVal
  ttl : Nat
  deriving DecidableEq, Repr

/-- The flat string-key namespace (association list, insertion ordered). -/
abbrev KV := List (String × Entry)

/-- A score-ordered set: member ↦ score (association list, insertion ordered;
range queries sort by score, ties broken by lexical member order, as the
store does). -/
abbrev ZSet := List (String × Nat)

/-- The state of the external key-value store as used by `CacheService`,
plus the clock and the fault-injection schedule. -/
structure Store where
  kv : KV
  lruIdx : ZSet
  lfuIdx : ZSet
  dirty : List String
  now : Nat
  faults : List Bool
  deriving DecidableEq, Repr

/-- A store with nothing cached and a fault-free schedule. -/
def emptyStore : Store := ⟨[], [], [], [], 0, []⟩

/-- Result of one stateful, fallible operation: the JS return value or a
thrown exception, together with the store state afterwards. -/
abbrev Res (α : Type) := Except Unit α × Store

/-- Consume the next fault flag of the schedule. -/
def popFault (s : Store) : Bool × Store :=
  match s.faults with
  | [] => (false, s)
  | f :: rest => (f, { s with faults := rest })

/-- Association-list lookup in the string namespace. -/
def kvLookup (k : String) : KV → Option Entry
  | [] => none
  | (k', e) :: rest => if k' = k then some e else kvLookup k rest

/-- A `SETEX`-style upsert: replace in place when the key exists, append
otherwise. -/
def kvSet (k : String) (e : Entry) : KV → KV
  | [] => [(k, e)]
  | (k', e') :: rest => if k' = k then (k, e) :: rest else (k', e') :: kvSet k e rest

/-- Delete a key from the string namespace. -/
def kvDel (k : String) (kv : KV) : KV := kv.filter (fun p => p.1 ≠ k)

/-- Score of a member of a sorted set, if present. -/
def zScore (m : String) : ZSet → Option Nat
  | [] => none
  | (m', sc) :: rest => if m' = m then some sc else zScore m rest

/-- A `ZADD`-style upsert: update the score in place, or append the member. -/
def zUpsert (m : String) (sc : Nat) : ZSet → ZSet
  | [] => [(m, sc)]
  | (m', sc') :: rest =>
    if m' = m then (m, sc) :: rest else (m', sc') :: zUpsert m sc rest

/-- The `ZREM` operation: drop a member. -/
def zRemove (m : String) (z : ZSet) : ZSet := z.filter (fun p => p.1 ≠ m)

/-- The `ZINCRBY` operation: add to the member's score, treating a missing member as
score 0 (so it is created with the increment). -/
def zIncr (m : String) (d : Nat) (z : ZSet) : ZSet :=
  match zScore m z with
  | some sc => zUpsert m (sc + d) z
  | none => z ++ [(m, d)]

/-- Sorted-set ordering used by range queries: by score ascending, ties by
lexical member order. -/
def zLe (p q : String × Nat) : Bool :=
  p.2 < q.2 || (p.2 = q.2 && decide (p.1 ≤ q.1))

/-- The member `ZRANGE idx 0 0` returns: the minimum under `zLe`. -/
def zMin : ZSet → Option (String × Nat)
  | [] => none
  | p :: rest =>
    match zMin rest with
    | none => some p
    | some q => if zLe p q then some p else some q

/-- Which of the two sorted-set indexes an operation addresses. -/
inductive ZName where
  | lru : ZName
  | lfu : ZName
  deriving DecidableEq, Repr

/-- Read the addressed index. -/
def getZ : ZName → Store → ZSet
  | .lru, s => s.lruIdx
  | .lfu, s => s.lfuIdx

/-- Replace the addressed index. -/
def setZ : ZName → ZSet → Store → Store
  | .lru, z, s => { s with lruIdx := z }
  | .lfu, z, s => { s with lfuIdx := z }

/-! ### `cacheClient` primitives (each consumes one fault flag) -/

/-- The primitive `cacheClient.get key`. -/
def rGet (k : String) (s : Store) : Res (Option Entry) :=
  let (f, s1) := popFault s
  if f then (.error (), s1) else (.ok (kvLookup k s1.kv), s1)

/-- The primitive `cacheClient.setEx key ttl payload`. -/
def rSetEx (k : String) (ttl : Nat) (v : JsVal) (s : Store) : Res Unit :=
  let (f, s1) := popFault s
  if f then (.error (), s1) else (.ok (), { s1 with kv := kvSet k ⟨v, ttl⟩ s1.kv })

/-- The primitive `cacheClient.del key` (returns the number of keys removed). -/
def rDel (k : String) (s : Store) : Res Nat :=
  let (f, s1) := popFault s
  if f then (.error (), s1)
  else (.ok (if kvLookup k s1.kv = none then 0 else 1), { s1 with kv := kvDel k s1.kv })

/-- The primitive `cacheClient.zCard idx`. -/
def rZCard (z : ZName) (s : Store) : Res Nat :=
  let (f, s1) := popFault s
  if f then (.error (), s1) else (.ok (getZ z s1).length, s1)

/-- The primitive `cacheClient.zRange idx 0 0`: the lowest-scored member, or nothing when
the index is empty. -/
def rZRangeMin (z : ZName) (s : Store) : Res (Option String) :=
  let (f, s1) := popFault s
  if f then (.error (), s1) else (.ok ((zMin (getZ z s1)).map Prod.fst), s1)

/-- The primitive `cacheClient.zAdd idx` with a score-member record. -/
def rZAdd (z : ZName) (m : String) (sc : Nat) (s : Store) : Res Unit :=
  let (f, s1) := popFault s
  if f then (.error (), s1) else (.ok (), setZ z (zUpsert m sc (getZ z s1)) s1)

/-- The primitive `cacheClient.zRem idx member`. -/
def rZRem (z : ZName) (m : String) (s : Store) : Res Unit :=
  let (f, s1) := popFault s
  if f then (.error (), s1) else (.ok (), setZ z (zRemove m (getZ z s1)) s1)

/-- The primitive `cacheClient.zIncrBy idx d member`. -/
def rZIncrBy (z : ZName) (d : Nat) (m : String) (s : Store) : Res Unit :=
  let (f, s1) := popFault s
  if f then (.error (), s1) else (.ok (), setZ z (zIncr m d (getZ z s1)) s1)

/-- The primitive `cacheClient.sAdd` on the dirty-keys set. -/
def rSAddDirty (k : String) (s : Store) : Res Unit :=
  let (f, s1) := popFault s
  if f then (.error (), s1)
  else (.ok (), { s1 with dirty := if k ∈ s1.dirty then s1.dirty else s1.dirty ++ [k] })

/-- The primitive `cacheClient.sRem` on the dirty-keys set. -/
def rSRemDirty (k : String) (s : Store) : Res Unit :=
  let (f, s1) := popFault s
  if f then (.error (), s1)
  else (.ok (), { s1 with dirty := s1.dirty.filter (fun k' => k' ≠ k) })

/-- The primitive `cacheClient.info` (result unused by `getStats`; still a
fallible round trip). -/
def rInfo (s : Store) : Res Unit :=
  let (f, s1) := popFault s
  if f then (.error (), s1) else (.ok (), s1)

/-- The clock read `Date.now()`: read the clock and advance it. -/
def dateNow (s : Store) : Nat × Store :=
  (s.now, { s with now := s.now + 1 })

/-! ### The `CacheService` strategies -/

/-- The try block of `CacheService.cacheAside(key, dataFetcher, ttl)`: fetch
the key; on a truthy (= present) entry return the parsed payload; on a miss
call the loader and, when its value is truthy, store it with `ttl`; return
the loader's value. -/
def cacheAsideTry (key : String) (dataFetcher : Except Unit JsVal) (ttl : Nat)
    (s : Store) : Res JsVal :=
  match rGet key s with
  | (.error _, s1) => (.error (), s1)
  | (.ok (some e), s1) => (.ok e.value, s1)
  | (.ok none, s1) =>
    match dataFetcher with
    | .error _ => (.error (), s1)
    | .ok d =>
      if d.truthy then
        match rSetEx key ttl d s1 with
        | (.error _, s2) => (.error (), s2)
        | (.ok _, s2) => (.ok d, s2)
      else (.ok d, s1)

/-- Method `CacheService.cacheAside`: the try block, with the catch block
re-invoking the loader and returning its result directly. -/
def cacheAside (key : String) (dataFetcher : Except Unit JsVal) (ttl : Nat)
    (s : Store) : Res JsVal :=
  match cacheAsideTry key dataFetcher ttl s with
  | (.ok v, s') => (.ok v, s')
  | (.error _, s') => (dataFetcher, s')

/-- The try block of `CacheService.readThrough(key, dataFetcher, ttl)`: same
shape as cache-aside with the miss branch tested first (`if (!data)`). -/
def readThroughTry (key : String) (dataFetcher : Except Unit JsVal) (ttl : Nat)
    (s : Store) : Res JsVal :=
  match rGet key s with
  | (.error _, s1) => (.error (), s1)
  | (.ok none, s1) =>
    match dataFetcher with
    | .error _ => (.error (), s1)
    | .ok d =>
      if d.truthy then
        match rSetEx key ttl d s1 with
        | (.error _, s2) => (.error (), s2)
        | (.ok _, s2) => (.ok d, s2)
      else (.ok d, s1)
  | (.ok (some e), s1) => (.ok e.value, s1)

/-- Method `CacheService.readThrough`: the try block, with the catch block
re-invoking the loader. -/
def readThrough (key : String) (dataFetcher : Except Unit JsVal) (ttl : Nat)
    (s : Store) : Res JsVal :=
  match readThroughTry key dataFetcher ttl s with
  | (.ok v, s') => (.ok v, s')
  | (.error _, s') => (dataFetcher, s')

/-- Method `CacheService.writeThrough(key, data, dbWriter, ttl)`: persist first,
then cache the persisted result; the catch block rethrows, so every failure
propagates. -/
def writeThrough (key : String) (data : JsVal) (dbWriter : JsVal → Except Unit JsVal)
    (ttl : Nat) (s : Store) : Res JsVal :=
  match dbWriter data with
  | .error _ => (.error (), s)
  | .ok result =>
    match rSetEx key ttl result s with
    | (.error _, s1) => (.error (), s1)
    | (.ok _, s1) => (.ok result, s1)

/-- Method `CacheService.writeAround(key, data, dbWriter)`: persist, then delete any
cache entry for the key; the catch block rethrows. -/
def writeAround (key : String) (data : JsVal) (dbWriter : JsVal → Except Unit JsVal)
    (s : Store) : Res JsVal :=
  match dbWriter data with
  | .error _ => (.error (), s)
  | .ok result =>
    match rDel key s with
    | (.error _, s1) => (.error (), s1)
    | (.ok _, s1) => (.ok result, s1)

/-- A deferred write-back persistence task: the `setTimeout` callback of
`writeBack`, capturing the key, the value and the persistence function. -/
structure Pending where
  key : String
  data : JsVal
  dbWriter : JsVal → Except Unit JsVal

/-- Method `CacheService.writeBack(key, data, dbWriter, ttl)`: cache the value, mark
the key dirty, schedule the deferred persistence and return the value at
once.  The second component lists the tasks scheduled by `setTimeout` (empty
when the try block threw before reaching the `setTimeout` call). -/
def writeBack (key : String) (data : JsVal) (dbWriter : JsVal → Except Unit JsVal)
    (ttl : Nat) (s : Store) : Res JsVal × List Pending :=
  match rSetEx key ttl data s with
  | (.error _, s1) => ((.error (), s1), [])
  | (.ok _, s1) =>
    match rSAddDirty key s1 with
    | (.error _, s2) => ((.error (), s2), [])
    | (.ok _, s2) => ((.ok data, s2), [⟨key, data, dbWriter⟩])

/-- The body of the `setTimeout` callback scheduled by `writeBack`: run
`dbWriter(data)` and on success remove the dirty marker; any failure is
only logged (the marker stays). -/
def runPending (p : Pending) (s : Store) : Store :=
  match p.dbWriter p.data with
  | .error _ => s
  | .ok _ =>
    match rSRemDirty p.key s with
    | (_, s1) => s1

/-- The try block of `CacheService.lruGet(key, maxSize)`: on a present
entry, stamp the key in the LRU index with the current time and return the
payload; a miss yields `null` (the `maxSize` parameter is accepted but
unused, as in the source). -/
def lruGetTry (key : String) (s : Store) : Res (Option JsVal) :=
  match rGet key s with
  | (.error _, s1) => (.error (), s1)
  | (.ok (some e), s1) =>
    let (t, s2) := dateNow s1
    match rZAdd .lru key t s2 with
    | (.error _, s3) => (.error (), s3)
    | (.ok _, s3) => (.ok (some e.value), s3)
  | (.ok none, s1) => (.ok none, s1)

/-- Method `CacheService.lruGet`: the try block, with the catch block returning
`null`. -/
def lruGet (key : String) (maxSize : Nat) (s : Store) : Res (Option JsVal) :=
  let _ := maxSize
  match lruGetTry key s with
  | (.ok v, s') => (.ok v, s')
  | (.error _, s') => (.ok none, s')

/-- The try block of `CacheService.lruSet(key, data, ttl, maxSize)`: when
the LRU index population reaches `maxSize`, evict the lowest-scored member
(delete its cache entry and index record); then cache the value and stamp
the key with the current time. -/
def lruSetTry (key : String) (data : JsVal) (ttl : Nat) (maxSize : Nat)
    (s : Store) : Res Bool :=
  match rZCard .lru s with
  | (.error _, s1) => (.error (), s1)
  | (.ok currentSize, s1) =>
    let afterEvict : Res Unit :=
      if currentSize ≥ maxSize then
        match rZRangeMin .lru s1 with
        | (.error _, s2) => (.error (), s2)
        | (.ok none, s2) => (.ok (), s2)
        | (.ok (some victim), s2) =>
          match rDel victim s2 with
          | (.error _, s3) => (.error (), s3)
          | (.ok _, s3) =>
            match rZRem .lru victim s3 with
            | (.error _, s4) => (.error (), s4)
            | (.ok _, s4) => (.ok (), s4)
      else (.ok (), s1)
    match afterEvict with
    | (.error _, s2) => (.error (), s2)
    | (.ok _, s2) =>
      match rSetEx key ttl data s2 with
      | (.error _, s3) => (.error (), s3)
      | (.ok _, s3) =>
        let (t, s4) := dateNow s3
        match rZAdd .lru key t s4 with
        | (.error _, s5) => (.error (), s5)
        | (.ok _, s5) => (.ok true, s5)

/-- Method `CacheService.lruSet`: the try block, with the catch block returning
`false`. -/
def lruSet (key : String) (data : JsVal) (ttl : Nat) (maxSize : Nat)
    (s : Store) : Res Bool :=
  match lruSetTry key data ttl maxSize s with
  | (.ok b, s') => (.ok b, s')
  | (.error _, s') => (.ok false, s')

/-- The try block of `CacheService.lfuGet(key)`: on a present entry,
increment the key's frequency score by 1 in the LFU index and return the
payload; a miss yields `null`. -/
def lfuGetTry (key : String) (s : Store) : Res (Option JsVal) :=
  match rGet key s with
  | (.error _, s1) => (.error (), s1)
  | (.ok (some e), s1) =>
    match rZIncrBy .lfu 1 key s1 with
    | (.error _, s2) => (.error (), s2)
    | (.ok _, s2) => (.ok (some e.value), s2)
  | (.ok none, s1) => (.ok none, s1)

/-- Method `CacheService.lfuGet`: the try block, with the catch block returning
`null`. -/
def lfuGet (key : String) (s : Store) : Res (Option JsVal) :=
  match lfuGetTry key s with
  | (.ok v, s') => (.ok v, s')
  | (.error _, s') => (.ok none, s')

/-- The try block of `CacheService.lfuSet(key, data, ttl, maxSize)`: when
the LFU index population reaches `maxSize`, evict the lowest-frequency
member; then cache the value and (re)set the key's frequency score to 1. -/
def lfuSetTry (key : String) (data : JsVal) (ttl : Nat) (maxSize : Nat)
    (s : Store) : Res Bool :=
  match rZCard .lfu s with
  | (.error _, s1) => (.error (), s1)
  | (.ok currentSize, s1) =>
    let afterEvict : Res Unit :=
      if currentSize ≥ maxSize then
        match rZRangeMin .lfu s1 with
        | (.error _, s2) => (.error (), s2)
        | (.ok none, s2) => (.ok (), s2)
        | (.ok (some victim), s2) =>
          match rDel victim s2 with
          | (.error _, s3) => (.error (), s3)
          | (.ok _, s3) =>
            match rZRem .lfu victim s3 with
            | (.error _, s4) => (.error (), s4)
            | (.ok _, s4) => (.ok (), s4)
      else (.ok (), s1)
    match afterEvict with
    | (.error _, s2) => (.error (), s2)
    | (.ok _, s2) =>
      match rSetEx key ttl data s2 with
      | (.error _, s3) => (.error (), s3)
      | (.ok _, s3) =>
        match rZAdd .lfu key 1 s3 with
        | (.error _, s4) => (.error (), s4)
        | (.ok _, s4) => (.ok true, s4)

/-- Method `CacheService.lfuSet`: the try block, with the catch block returning
`false`. -/
def lfuSet (key : String) (data : JsVal) (ttl : Nat) (maxSize : Nat)
    (s : Store) : Res Bool :=
  match lfuSetTry key data ttl maxSize s with
  | (.ok b, s') => (.ok b, s')
  | (.error _, s') => (.ok false, s')

/-- The record `CacheService.getStats` returns. -/
structure CacheStats where
  hits : JsVal
  misses : JsVal
  lruSize : Nat
  lfuSize : Nat
  deriving DecidableEq, Repr

/-- JS `x || 0` over the raw fetched counter: an absent entry reads as the
number 0; a present entry reads as its stored payload (the raw string, here
represented by the payload it serializes). -/
def orZero : Option Entry → JsVal
  | some e => e.value
  | none => .vNum 0

/-- Method `CacheService.getStats()`: read the `cache_hits` / `cache_misses` string
keys (defaulting to 0) and the two index populations; any thrown error
yields the empty record (`none`). -/
def getStats (s : Store) : Res (Option CacheStats) :=
  match rInfo s with
  | (.error _, s1) => (.ok none, s1)
  | (.ok _, s1) =>
    match rGet "cache_hits" s1 with
    | (.error _, s2) => (.ok none, s2)
    | (.ok h, s2) =>
      match rGet "cache_misses" s2 with
      | (.error _, s3) => (.ok none, s3)
      | (.ok m, s3) =>
        match rZCard .lru s3 with
        | (.error _, s4) => (.ok none, s4)
        | (.ok nLru, s4) =>
          match rZCard .lfu s4 with
          | (.error _, s5) => (.ok none, s5)
          | (.ok nLfu, s5) => (.ok (some ⟨orZero h, orZero m, nLru, nLfu⟩), s5)

/-- Fold `lruSet` over a list of (key, value) pairs, threading the store
(the return flags are discarded, as a fire-and-forget caller would). -/
def lruInsertAll (items : List (String × JsVal)) (ttl maxSize : Nat)
    (s : Store) : Store :=
  items.foldl (fun st it => (lruSet it.1 it.2 ttl maxSize st).2) s

/-- The string entries a sequence of `lruSet` calls with expiry `ttl`
produces, in insertion order. -/
def entriesOf (ttl : Nat) (items : List (String × JsVal)) : KV :=
  items.map (fun p => (p.1, ⟨p.2, ttl⟩))

/-- The LRU index a sequence of `lruSet` calls starting at time `t`
produces: consecutive, strictly increasing access stamps. -/
def scoreFrom (t : Nat) : List (String × JsVal) → ZSet
  | [] => []
  | (k, _) :: rest => (k, t) :: scoreFrom (t + 1) rest

deriving instance DecidableEq for Except

/-- A store holding a single cached entry (and nothing else), fault-free. -/
def preloaded (k : String) (v : JsVal) (ttl : Nat) : Store :=
  ⟨[(k, ⟨v, ttl⟩)], [], [], [], 0, []⟩

/-- The LRU recency scenario of the spec: insert A then B with
`maxSize = 2`, read A, then insert C. -/
def lruScenario : Store :=
  let s1 := (lruSet "A" (.vNum 1) 60 2 emptyStore).2
  let s2 := (lruSet "B" (.vNum 2) 60 2 s1).2
  let s3 := (lruGet "A" 2 s2).2
  (lruSet "C" (.vNum 3) 60 2 s3).2

/-- The LFU frequency scenario of the spec: insert A then B with
`maxSize = 2`, read A three times, then insert C. -/
def lfuScenario : Store :=
  let s1 := (lfuSet "A" (.vNum 1) 60 2 emptyStore).2
  let s2 := (lfuSet "B" (.vNum 2) 60 2 s1).2
  let s3 := (lfuGet "A" s2).2
  let s4 := (lfuGet "A" s3).2
  let s5 := (lfuGet "A" s4).2
  (lfuSet "C" (.vNum 3) 60 2 s5).2

/-! ### Helper lemmas: primitives on a fault-free schedule -/

theorem popFault_eq (s : Store) (h : s.faults = []) : popFault s = (false, s) := by
  unfold popFault
  rw [h]

theorem rGet_nf (k : String) (s : Store) (h : s.faults = []) :
    rGet k s = (.ok (kvLookup k s.kv), s) := by
  unfold rGet
  rw [popFault_eq s h]
  rfl

theorem rSetEx_nf (k : String) (ttl : Nat) (v : JsVal) (s : Store) (h : s.faults = []) :
    rSetEx k ttl v s = (.ok (), { s with kv := kvSet k ⟨v, ttl⟩ s.kv }) := by
  unfold rSetEx
  rw [popFault_eq s h]
  rfl

theorem rDel_nf (k : String) (s : Store) (h : s.faults = []) :
    rDel k s = (.ok (if kvLookup k s.kv = none then 0 else 1),
      { s with kv := kvDel k s.kv }) := by
  unfold rDel
  rw [popFault_eq s h]
  rfl

theorem rZCard_nf (z : ZName) (s : Store) (h : s.faults = []) :
    rZCard z s = (.ok (getZ z s).length, s) := by
  unfold rZCard
  rw [popFault_eq s h]
  rfl

theorem rZRangeMin_nf (z : ZName) (s : Store) (h : s.faults = []) :
    rZRangeMin z s = (.ok ((zMin (getZ z s)).map Prod.fst), s) := by
  unfold rZRangeMin
  rw [popFault_eq s h]
  rfl

theorem rZAdd_nf (z : ZName) (m : String) (sc : Nat) (s : Store) (h : s.faults = []) :
    rZAdd z m sc s = (.ok (), setZ z (zUpsert m sc (getZ z s)) s) := by
  unfold rZAdd
  rw [popFault_eq s h]
  rfl

theorem rZRem_nf (z : ZName) (m : String) (s : Store) (h : s.faults = []) :
    rZRem z m s = (.ok (), setZ z (zRemove m (getZ z s)) s) := by
  unfold rZRem
  rw [popFault_eq s h]
  rfl

theorem rZIncrBy_nf (z : ZName) (d : Nat) (m : String) (s : Store) (h : s.faults = []) :
    rZIncrBy z d m s = (.ok (), setZ z (zIncr m d (getZ z s)) s) := by
  unfold rZIncrBy
  rw [popFault_eq s h]
  rfl

theorem rSAddDirty_nf (k : String) (s : Store) (h : s.faults = []) :
    rSAddDirty k s = (.ok (),
      { s with dirty := if k ∈ s.dirty then s.dirty else s.dirty ++ [k] }) := by
  unfold rSAddDirty
  rw [popFault_eq s h]
  rfl

theorem rSRemDirty_nf (k : String) (s : Store) (h : s.faults = []) :
    rSRemDirty k s = (.ok (), { s with dirty := s.dirty.filter (fun k' => k' ≠ k) }) := by
  unfold rSRemDirty
  rw [popFault_eq s h]
  rfl

theorem rInfo_nf (s : Store) (h : s.faults = []) : rInfo s = (.ok (), s) := by
  unfold rInfo
  rw [popFault_eq s h]
  rfl

/-! ### Helper lemmas: string-namespace association list -/

theorem kvLookup_kvSet_self (k : String) (e : Entry) (kv : KV) :
    kvLookup k (kvSet k e kv) = some e := by
  induction kv with
  | nil => simp [kvSet, kvLookup]
  | cons p rest ih =>
    by_cases hk : p.1 = k
    · simp [kvSet, kvLookup, hk]
    · simp [kvSet, kvLookup, hk, ih]

theorem kvLookup_kvSet_ne (q k : String) (e : Entry) (kv : KV) (h : k ≠ q) :
    kvLookup q (kvSet k e kv) = kvLookup q kv := by
  induction kv with
  | nil => simp [kvSet, kvLookup, h]
  | cons p rest ih =>
    by_cases hk : p.1 = k
    · subst hk
      simp [kvSet, kvLookup, h]
    · have hqk : ¬q = k := fun hh => h hh.symm
      by_cases hq : p.1 = q
      · simp [kvSet, kvLookup, hk, hq, hqk]
      · simp [kvSet, kvLookup, hk, hq, ih]

theorem kvSet_fresh (k : String) (e : Entry) (kv : KV) (h : kvLookup k kv = none) :
    kvSet k e kv = kv ++ [(k, e)] := by
  induction kv with
  | nil => simp [kvSet]
  | cons p rest ih =>
    by_cases hk : p.1 = k
    · simp [kvLookup, hk] at h
    · simp [kvLookup, hk] at h
      simp [kvSet, hk, ih h]

theorem kvLookup_append (q : String) (a b : KV) :
    kvLookup q (a ++ b) =
      match kvLookup q a with
      | some e => some e
      | none => kvLookup q b := by
  induction a with
  | nil => simp [kvLookup]
  | cons p rest ih =>
    by_cases hq : p.1 = q
    · simp [kvLookup, hq]
    · simp [kvLookup, hq, ih]

theorem kvLookup_kvDel_self (k : String) (kv : KV) :
    kvLookup k (kvDel k kv) = none := by
  induction kv with
  | nil => simp [kvDel, kvLookup]
  | cons p rest ih =>
    by_cases hk : p.1 = k
    · simpa [kvDel, kvLookup, hk] using ih
    · simpa [kvDel, kvLookup, hk] using ih

theorem kvDel_not_mem (k : String) (kv : KV) (h : kvLookup k kv = none) :
    kvDel k kv = kv := by
  induction kv with
  | nil => simp [kvDel]
  | cons p rest ih =>
    by_cases hk : p.1 = k
    · simp [kvLookup, hk] at h
    · simp [kvLookup, hk] at h
      simp [kvDel] at ih ⊢
      exact ⟨hk, ih h⟩

/-! ### Helper lemmas: sorted sets -/

theorem zUpsert_fresh (m : String) (sc : Nat) (z : ZSet) (h : zScore m z = none) :
    zUpsert m sc z = z ++ [(m, sc)] := by
  induction z with
  | nil => simp [zUpsert]
  | cons p rest ih =>
    by_cases hm : p.1 = m
    · simp [zScore, hm] at h
    · simp [zScore, hm] at h
      simp [zUpsert, hm, ih h]

theorem zScore_append (q : String) (a b : ZSet) :
    zScore q (a ++ b) =
      match zScore q a with
      | some sc => some sc
      | none => zScore q b := by
  induction a with
  | nil => simp [zScore]
  | cons p rest ih =>
    by_cases hq : p.1 = q
    · simp [zScore, hq]
    · simp [zScore, hq, ih]

theorem zRemove_not_mem (m : String) (z : ZSet) (h : zScore m z = none) :
    zRemove m z = z := by
  induction z with
  | nil => simp [zRemove]
  | cons p rest ih =>
    by_cases hm : p.1 = m
    · simp [zScore, hm] at h
    · simp [zScore, hm] at h
      simp [zRemove] at ih ⊢
      exact ⟨hm, ih h⟩

/-- Every member of a `scoreFrom t items` index has score at least `t`. -/
theorem scoreFrom_score_ge (t : Nat) (items : List (String × JsVal)) :
    ∀ p ∈ scoreFrom t items, t ≤ p.2 := by
  induction items generalizing t with
  | nil => simp [scoreFrom]
  | cons it rest ih =>
    rcases it with ⟨k, v⟩
    intro p hp
    simp only [scoreFrom, List.mem_cons] at hp
    rcases hp with hp | hp
    · simp [hp]
    · exact Nat.le_trans (Nat.le_succ t) (ih (t + 1) p hp)

/-- One unfolding step of `zMin`. -/
theorem zMin_cons (p : String × Nat) (z : ZSet) :
    zMin (p :: z) =
      match zMin z with
      | none => some p
      | some q => if zLe p q then some p else some q := rfl

/-- On an index with strictly increasing stamps, the range-minimum is the
first (oldest) member. -/
theorem zMin_scoreFrom (t : Nat) (k : String) (v : JsVal)
    (rest : List (String × JsVal)) :
    zMin (scoreFrom t ((k, v) :: rest)) = some (k, t) := by
  induction rest generalizing t k v with
  | nil => simp [scoreFrom, zMin]
  | cons it tail ih =>
    rcases it with ⟨k', v'⟩
    have hrec := ih (t + 1) k' v'
    simp only [scoreFrom] at hrec ⊢
    rw [zMin_cons, hrec]
    simp [zLe]

/-! ### Further list helper lemmas -/

theorem kvLookup_eq_none (k : String) (kv : KV) (h : k ∉ kv.map Prod.fst) :
    kvLookup k kv = none := by
  induction kv with
  | nil => rfl
  | cons p rest ih =>
    simp only [List.map_cons, List.mem_cons] at h
    push_neg at h
    have hne : ¬p.1 = k := fun hh => h.1 hh.symm
    simp [kvLookup, hne, ih h.2]

theorem zScore_eq_none (m : String) (z : ZSet) (h : m ∉ z.map Prod.fst) :
    zScore m z = none := by
  induction z with
  | nil => rfl
  | cons p rest ih =>
    simp only [List.map_cons, List.mem_cons] at h
    push_neg at h
    have hne : ¬p.1 = m := fun hh => h.1 hh.symm
    simp [zScore, hne, ih h.2]

theorem zScore_zUpsert_self (m : String) (sc : Nat) (z : ZSet) :
    zScore m (zUpsert m sc z) = some sc := by
  induction z with
  | nil => simp [zUpsert, zScore]
  | cons p rest ih =>
    by_cases hm : p.1 = m
    · simp [zUpsert, zScore, hm]
    · simp [zUpsert, zScore, hm, ih]

theorem entriesOf_keys (ttl : Nat) (items : List (String × JsVal)) :
    (entriesOf ttl items).map Prod.fst = items.map Prod.fst := by
  induction items with
  | nil => rfl
  | cons p rest ih => simp [entriesOf] at ih ⊢

theorem scoreFrom_keys (t : Nat) (items : List (String × JsVal)) :
    (scoreFrom t items).map Prod.fst = items.map Prod.fst := by
  induction items generalizing t with
  | nil => rfl
  | cons p rest ih =>
    rcases p with ⟨k, v⟩
    simp [scoreFrom, ih]

theorem scoreFrom_length (t : Nat) (items : List (String × JsVal)) :
    (scoreFrom t items).length = items.length := by
  induction items generalizing t with
  | nil => rfl
  | cons p rest ih =>
    rcases p with ⟨k, v⟩
    simp [scoreFrom, ih]

theorem entriesOf_length (ttl : Nat) (items : List (String × JsVal)) :
    (entriesOf ttl items).length = items.length := by
  simp [entriesOf]

/-- Lookup of a member of `entriesOf` under key-distinctness. -/
theorem kvLookup_entriesOf (ttl : Nat) (items : List (String × JsVal))
    (hnd : (items.map Prod.fst).Nodup) :
    ∀ p ∈ items, kvLookup p.1 (entriesOf ttl items) = some ⟨p.2, ttl⟩ := by
  induction items with
  | nil => intro p hp; simp at hp
  | cons q rest ih =>
    simp only [List.map_cons, List.nodup_cons] at hnd
    intro p hp
    rcases List.mem_cons.mp hp with hp | hp
    · subst hp
      simp [entriesOf, kvLookup]
    · have hne : ¬q.1 = p.1 := by
        intro hh
        exact hnd.1 (hh ▸ List.mem_map_of_mem Prod.fst hp)
      simp only [entriesOf, List.map_cons, kvLookup, hne, if_false]
      exact ih hnd.2 p hp

/-! ### Strategy-level helper lemmas -/

/-- Functions `readThrough` and `cacheAside` are the same function of key, loader,
ttl and store state: their try blocks test the same fetch result (with the
branches merely written in the opposite order) and their catch blocks both
re-invoke the loader. -/
theorem readThrough_eq_cacheAside (key : String) (dataFetcher : Except Unit JsVal)
    (ttl : Nat) (s : Store) :
    readThrough key dataFetcher ttl s = cacheAside key dataFetcher ttl s := by
  unfold readThrough cacheAside readThroughTry cacheAsideTry
  rcases hg : rGet key s with ⟨r, s1⟩
  rcases r with _ | o
  · rfl
  · rcases o with _ | e <;> rfl

/-- A fault-free `cacheAside` miss on a truthy loader value stores the value
and returns it. -/
theorem cacheAside_miss (key : String) (v : JsVal) (ttl : Nat) (s : Store)
    (hf : s.faults = []) (hmiss : kvLookup key s.kv = none) (hv : v.truthy = true) :
    cacheAside key (.ok v) ttl s =
      (.ok v, { s with kv := kvSet key ⟨v, ttl⟩ s.kv }) := by
  unfold cacheAside cacheAsideTry
  rw [rGet_nf key s hf, hmiss]
  simp only [hv, if_true]
  rw [rSetEx_nf key ttl v s hf]

/-- A fault-free `cacheAside` on a present entry returns the cached payload
and leaves the store unchanged, whatever the loader is. -/
theorem cacheAside_hit (key : String) (dataFetcher : Except Unit JsVal)
    (ttl : Nat) (e : Entry) (s : Store)
    (hf : s.faults = []) (hhit : kvLookup key s.kv = some e) :
    cacheAside key dataFetcher ttl s = (.ok e.value, s) := by
  unfold cacheAside cacheAsideTry
  rw [rGet_nf key s hf, hhit]

/-- The fault-free result of `lruGet` is exactly the cached payload (or
`null` on a miss). -/
theorem lruGet_nf_fst (key : String) (maxSize : Nat) (s : Store)
    (hf : s.faults = []) :
    (lruGet key maxSize s).1 = .ok ((kvLookup key s.kv).map (fun e => e.value)) := by
  unfold lruGet lruGetTry
  rw [rGet_nf key s hf]
  rcases hkv : kvLookup key s.kv with _ | e
  · rfl
  · simp only [dateNow]
    rw [rZAdd_nf .lru key s.now { s with now := s.now + 1 } hf]
    rfl

/-- A fault-free `lfuGet` on a present entry returns the payload and bumps
the key's LFU frequency. -/
theorem lfuGet_nf_hit (key : String) (e : Entry) (s : Store)
    (hf : s.faults = []) (hkv : kvLookup key s.kv = some e) :
    lfuGet key s = (.ok (some e.value), { s with lfuIdx := zIncr key 1 s.lfuIdx }) := by
  unfold lfuGet lfuGetTry
  rw [rGet_nf key s hf, hkv]
  dsimp only
  rw [rZIncrBy_nf .lfu 1 key s hf]
  rfl

/-- A fault-free `lruSet` below capacity on a fresh key appends the entry
and stamps it with the current time. -/
theorem lruSet_noEvict (key : String) (data : JsVal) (ttl maxSize : Nat) (s : Store)
    (hf : s.faults = []) (hlt : s.lruIdx.length < maxSize)
    (hkv : kvLookup key s.kv = none) (hz : zScore key s.lruIdx = none) :
    lruSet key data ttl maxSize s =
      (.ok true,
        { s with kv := s.kv ++ [(key, ⟨data, ttl⟩)],
                 lruIdx := s.lruIdx ++ [(key, s.now)],
                 now := s.now + 1 }) := by
  have hge : ¬maxSize ≤ s.lruIdx.length := Nat.not_le.mpr hlt
  unfold lruSet lruSetTry
  simp [rZCard_nf, rSetEx_nf, rZAdd_nf, dateNow, getZ, setZ, hf, hge,
    kvSet_fresh key ⟨data, ttl⟩ s.kv hkv, zUpsert_fresh key s.now s.lruIdx hz]

/-- On a fault-free schedule the try block of `lruSet` always reports
success. -/
theorem lruSetTry_nf_ok (key : String) (data : JsVal) (ttl maxSize : Nat)
    (s : Store) (hf : s.faults = []) :
    (lruSetTry key data ttl maxSize s).1 = .ok true := by
  unfold lruSetTry
  by_cases hc : maxSize ≤ s.lruIdx.length
  · rcases hzm : (zMin s.lruIdx).map Prod.fst with _ | victim <;>
      simp [rZCard_nf, rZRangeMin_nf, rDel_nf, rZRem_nf, rSetEx_nf, rZAdd_nf,
        dateNow, getZ, setZ, hf, hc, hzm]
  · simp [rZCard_nf, rSetEx_nf, rZAdd_nf, dateNow, getZ, setZ, hf, hc]

/-- On a fault-free schedule the try block of `lfuSet` always reports
success. -/
theorem lfuSetTry_nf_ok (key : String) (data : JsVal) (ttl maxSize : Nat)
    (s : Store) (hf : s.faults = []) :
    (lfuSetTry key data ttl maxSize s).1 = .ok true := by
  unfold lfuSetTry
  by_cases hc : maxSize ≤ s.lfuIdx.length
  · rcases hzm : (zMin s.lfuIdx).map Prod.fst with _ | victim <;>
      simp [rZCard_nf, rZRangeMin_nf, rDel_nf, rZRem_nf, rSetEx_nf, rZAdd_nf,
        getZ, setZ, hf, hc, hzm]
  · simp [rZCard_nf, rSetEx_nf, rZAdd_nf, getZ, setZ, hf, hc]

/-- Filling an LRU cache below capacity with fresh, pairwise-distinct keys
appends all entries and stamps them with consecutive times. -/
theorem lruFill (ttl maxSize : Nat) (items : List (String × JsVal)) :
    ∀ s : Store, s.faults = [] →
    s.lruIdx.length + items.length ≤ maxSize →
    (items.map Prod.fst).Nodup →
    (∀ p ∈ items, kvLookup p.1 s.kv = none) →
    (∀ p ∈ items, zScore p.1 s.lruIdx = none) →
    lruInsertAll items ttl maxSize s =
      { s with kv := s.kv ++ entriesOf ttl items,
               lruIdx := s.lruIdx ++ scoreFrom s.now items,
               now := s.now + items.length } := by
  induction items with
  | nil =>
    intro s hf _ _ _ _
    simp [lruInsertAll, entriesOf, scoreFrom]
  | cons it rest ih =>
    rintro s hf hlen hnd hkv hz
    rcases it with ⟨k, v⟩
    simp only [List.map_cons, List.nodup_cons] at hnd
    have hlt : s.lruIdx.length < maxSize := by
      simp only [List.length_cons] at hlen
      omega
    have hstep := lruSet_noEvict k v ttl maxSize s hf hlt
      (hkv (k, v) (List.mem_cons_self _ _)) (hz (k, v) (List.mem_cons_self _ _))
    have hfold : lruInsertAll ((k, v) :: rest) ttl maxSize s =
        lruInsertAll rest ttl maxSize (lruSet k v ttl maxSize s).2 := by
      simp [lruInsertAll]
    rw [hfold, hstep]
    set s1 : Store :=
      { s with kv := s.kv ++ [(k, ⟨v, ttl⟩)],
               lruIdx := s.lruIdx ++ [(k, s.now)],
               now := s.now + 1 } with hs1
    have hkv1 : ∀ p ∈ rest, kvLookup p.1 s1.kv = none := by
      intro p hp
      have hne : k ≠ p.1 := fun hh =>
        hnd.1 (hh ▸ List.mem_map_of_mem Prod.fst hp)
      rw [hs1]
      simp only [kvLookup_append]
      rw [hkv p (List.mem_cons_of_mem _ hp)]
      simp [kvLookup, hne]
    have hz1 : ∀ p ∈ rest, zScore p.1 s1.lruIdx = none := by
      intro p hp
      have hne : k ≠ p.1 := fun hh =>
        hnd.1 (hh ▸ List.mem_map_of_mem Prod.fst hp)
      rw [hs1]
      simp only [zScore_append]
      rw [hz p (List.mem_cons_of_mem _ hp)]
      simp [zScore, hne]
    have hlen1 : s1.lruIdx.length + rest.length ≤ maxSize := by
      rw [hs1]
      simp only [List.length_cons] at hlen
      simp
      omega
    have := ih s1 (by exact hf) hlen1 hnd.2 hkv1 hz1
    rw [this, hs1]
    simp only [entriesOf, scoreFrom, List.map_cons, List.length_cons, Store.mk.injEq,
      List.append_assoc, List.singleton_append, and_true, true_and]
    omega

theorem kvDel_cons_self (k : String) (e : Entry) (kv : KV) :
    kvDel k ((k, e) :: kv) = kvDel k kv := by
  simp [kvDel]

theorem zRemove_cons_self (m : String) (sc : Nat) (z : ZSet) :
    zRemove m ((m, sc) :: z) = zRemove m z := by
  simp [zRemove]

/-- A fault-free `lruSet` at capacity evicts the lowest-stamped member
(removing its cache entry and index record), then appends the new entry and
stamps it. -/
theorem lruSet_evict (key : String) (data : JsVal) (ttl maxSize : Nat) (s : Store)
    (hf : s.faults = []) (hcard : maxSize ≤ s.lruIdx.length)
    (victim : String) (vsc : Nat) (hmin : zMin s.lruIdx = some (victim, vsc))
    (hkv : kvLookup key (kvDel victim s.kv) = none)
    (hz : zScore key (zRemove victim s.lruIdx) = none) :
    lruSet key data ttl maxSize s =
      (.ok true,
        { s with kv := kvDel victim s.kv ++ [(key, ⟨data, ttl⟩)],
                 lruIdx := zRemove victim s.lruIdx ++ [(key, s.now)],
                 now := s.now + 1 }) := by
  unfold lruSet lruSetTry
  simp [rZCard_nf, rZRangeMin_nf, rDel_nf, rZRem_nf, rSetEx_nf, rZAdd_nf, dateNow,
    getZ, setZ, hf, hcard, hmin,
    kvSet_fresh key ⟨data, ttl⟩ (kvDel victim s.kv) hkv,
    zUpsert_fresh key s.now (zRemove victim s.lruIdx) hz]

theorem zScore_zIncr_self (m : String) (d : Nat) (z : ZSet) :
    zScore m (zIncr m d z) = some ((zScore m z).getD 0 + d) := by
  unfold zIncr
  rcases hsc : zScore m z with _ | sc
  · rw [zScore_append, hsc]
    simp [zScore]
  · rw [zScore_zUpsert_self]
    rfl

/-- Full-state evaluation of a fault-free `lruGet` hit: the payload comes
back and the key is upserted into the LRU index at the current time. -/
theorem lruGet_nf_hit (key : String) (maxSize : Nat) (e : Entry) (s : Store)
    (hf : s.faults = []) (hkv : kvLookup key s.kv = some e) :
    lruGet key maxSize s =
      (.ok (some e.value),
        { s with lruIdx := zUpsert key s.now s.lruIdx, now := s.now + 1 }) := by
  unfold lruGet lruGetTry
  rw [rGet_nf key s hf, hkv]
  dsimp only
  simp only [dateNow]
  rw [rZAdd_nf .lru key s.now { s with now := s.now + 1 } hf]
  simp [getZ, setZ]

/-- A fault-free read strategy only ever writes under its own key: lookups
of any other key are unchanged by `cacheAside`. -/
theorem cacheAside_preserves_other_keys (key q : String)
    (dataFetcher : Except Unit JsVal) (ttl : Nat) (s : Store)
    (hf : s.faults = []) (hq : key ≠ q) :
    kvLookup q (cacheAside key dataFetcher ttl s).2.kv = kvLookup q s.kv := by
  unfold cacheAside cacheAsideTry
  rw [rGet_nf key s hf]
  rcases hc : kvLookup key s.kv with _ | e
  · rcases dataFetcher with _ | d
    · rfl
    · dsimp only
      by_cases ht : d.truthy = true
      · simp only [ht, if_true]
        rw [rSetEx_nf key ttl d s hf]
        dsimp only
        exact kvLookup_kvSet_ne q key ⟨d, ttl⟩ s.kv hq
      · simp only [ht, if_false]
        rfl
  · rfl

/-- Full evaluation of a fault-free `getStats`: the hit/miss fields are the
raw stored counter keys (0 when absent) and the sizes are the index
populations. -/
theorem getStats_nf (s : Store) (hf : s.faults = []) :
    getStats s =
      (.ok (some ⟨orZero (kvLookup "cache_hits" s.kv),
        orZero (kvLookup "cache_misses" s.kv),
        s.lruIdx.length, s.lfuIdx.length⟩), s) := by
  unfold getStats
  rw [rInfo_nf s hf]
  dsimp only
  rw [rGet_nf "cache_hits" s hf]
  dsimp only
  rw [rGet_nf "cache_misses" s hf]
  dsimp only
  rw [rZCard_nf .lru s hf]
  dsimp only
  rw [rZCard_nf .lfu s hf]
  simp [getZ]

/-! ### Claim theorems -/

/-- C1: for every key, positive ttl and loader returning a non-null (truthy)
value, if a fault-free `cacheAside` call misses and its cache write
succeeds, then an immediate second `cacheAside` call on the same key
returns the first loader's value for every second loader — including one
that throws — the value being served from the cache. -/
theorem c1_cacheAside_second_call_served_from_cache
    (key : String) (v : JsVal) (ttl : Nat) (s : Store)
    (hf : s.faults = []) (hmiss : kvLookup key s.kv = none)
    (hv : v.truthy = true) (ht : 0 < ttl) :
    (cacheAside key (.ok v) ttl s).1 = .ok v ∧
    ∀ dataFetcher2 : Except Unit JsVal,
      (cacheAside key dataFetcher2 ttl (cacheAside key (.ok v) ttl s).2).1 = .ok v := by
  have h1 := cacheAside_miss key v ttl s hf hmiss hv
  refine ⟨by rw [h1], ?_⟩
  intro f2
  rw [h1]
  have h2 := cacheAside_hit key f2 ttl ⟨v, ttl⟩
    { s with kv := kvSet key ⟨v, ttl⟩ s.kv } hf
    (kvLookup_kvSet_self key ⟨v, ttl⟩ s.kv)
  rw [h2]

/-- Witness for C1 at key `"k"`, value `42`, ttl `10`, empty store, with a
throwing second loader. -/
theorem c1_witness :
    (cacheAside "k" (.ok (.vNum 42)) 10 emptyStore).1 = .ok (.vNum 42) ∧
    (cacheAside "k" (.error ()) 10
      (cacheAside "k" (.ok (.vNum 42)) 10 emptyStore).2).1 = .ok (.vNum 42) :=
  ⟨(c1_cacheAside_second_call_served_from_cache "k" (.vNum 42) 10 emptyStore
      rfl rfl rfl (by decide)).1,
   (c1_cacheAside_second_call_served_from_cache "k" (.vNum 42) 10 emptyStore
      rfl rfl rfl (by decide)).2 (.error ())⟩

/-- C2 counterexample: starting from a store where `"k"` is already cached
with value `1`, a `writeThrough` whose persistence function throws does
propagate the failure and performs no cache write — but the cache still
contains a value for `"k"` afterwards (the pre-existing entry), refuting
"the cache contains no value for the key afterward" as universally
stated. -/
theorem c2_counterexample :
    (writeThrough "k" (.vNum 2) (fun _ => .error ()) 10
        (preloaded "k" (.vNum 1) 10)).1 = .error () ∧
    kvLookup "k"
      (writeThrough "k" (.vNum 2) (fun _ => .error ()) 10
        (preloaded "k" (.vNum 1) 10)).2.kv = some ⟨.vNum 1, 10⟩ :=
  ⟨rfl, rfl⟩

/-- C2 (amended): when the persistence function fails, `writeThrough`
propagates the failure and performs no cache write — the store state is
completely unchanged; in particular, if the cache held no value for the key
beforehand, it holds none afterwards. -/
theorem c2_writeThrough_failure_leaves_store_unchanged
    (key : String) (data : JsVal) (dbWriter : JsVal → Except Unit JsVal)
    (ttl : Nat) (s : Store) (h : dbWriter data = .error ()) :
    writeThrough key data dbWriter ttl s = (.error (), s) ∧
    (kvLookup key s.kv = none →
      kvLookup key (writeThrough key data dbWriter ttl s).2.kv = none) := by
  have h1 : writeThrough key data dbWriter ttl s = (.error (), s) := by
    unfold writeThrough
    rw [h]
  exact ⟨h1, fun hnone => by rw [h1]; exact hnone⟩

/-- Witness for C2 at key `"k"` on the empty store with a throwing
persistence function. -/
theorem c2_witness :
    writeThrough "k" (.vNum 2) (fun _ => .error ()) 10 emptyStore
        = (.error (), emptyStore) ∧
    (kvLookup "k" emptyStore.kv = none →
      kvLookup "k"
        (writeThrough "k" (.vNum 2) (fun _ => .error ()) 10 emptyStore).2.kv = none) :=
  c2_writeThrough_failure_leaves_store_unchanged "k" (.vNum 2)
    (fun _ => .error ()) 10 emptyStore rfl

/-- C5: a fault-free `writeAround` with a successful persistence function
returns the persisted value and deletes any cache entry for the key, so the
cache is empty for that key afterwards (a subsequent cache-aside read is a
miss); and a failing persistence function makes `writeAround` propagate the
failure. -/
theorem c5_writeAround_invalidates (key : String) (data w : JsVal)
    (dbWriter : JsVal → Except Unit JsVal) (s : Store)
    (hok : dbWriter data = .ok w) (hf : s.faults = []) :
    (writeAround key data dbWriter s).1 = .ok w ∧
    kvLookup key (writeAround key data dbWriter s).2.kv = none ∧
    ∀ dbW2 : JsVal → Except Unit JsVal, dbW2 data = .error () →
      writeAround key data dbW2 s = (.error (), s) := by
  have h1 : writeAround key data dbWriter s =
      (.ok w, { s with kv := kvDel key s.kv }) := by
    unfold writeAround
    rw [hok, rDel_nf key s hf]
  refine ⟨by rw [h1], ?_, ?_⟩
  · rw [h1]
    exact kvLookup_kvDel_self key s.kv
  · intro dbW2 h2
    unfold writeAround
    rw [h2]

/-- Witness for C5 at key `"k"` on a store where `"k"` was previously
cached. -/
theorem c5_witness :
    (writeAround "k" (.vNum 2) (fun x => .ok x) (preloaded "k" (.vNum 9) 5)).1
        = .ok (.vNum 2) ∧
    kvLookup "k"
      (writeAround "k" (.vNum 2) (fun x => .ok x) (preloaded "k" (.vNum 9) 5)).2.kv
        = none ∧
    writeAround "k" (.vNum 2) (fun _ => .error ()) (preloaded "k" (.vNum 9) 5)
        = (.error (), preloaded "k" (.vNum 9) 5) :=
  ⟨(c5_writeAround_invalidates "k" (.vNum 2) (.vNum 2) (fun x => .ok x)
      (preloaded "k" (.vNum 9) 5) rfl rfl).1,
   (c5_writeAround_invalidates "k" (.vNum 2) (.vNum 2) (fun x => .ok x)
      (preloaded "k" (.vNum 9) 5) rfl rfl).2.1,
   (c5_writeAround_invalidates "k" (.vNum 2) (.vNum 2) (fun x => .ok x)
      (preloaded "k" (.vNum 9) 5) rfl rfl).2.2 (fun _ => .error ()) rfl⟩

/-- C6 counterexample: with `"a"` cached but absent from the LRU index, a
`lruGet` on `"a"` returns the value but ALSO adds `"a"` to the LRU index
(the index goes from empty to `[("a", 0)]`), refuting "without adding k to
the LRU index" — `zAdd` is an upsert. -/
theorem c6_counterexample :
    (preloaded "a" (.vNum 7) 5).lruIdx = [] ∧
    (lruGet "a" 100 (preloaded "a" (.vNum 7) 5)).1 = .ok (some (.vNum 7)) ∧
    (lruGet "a" 100 (preloaded "a" (.vNum 7) 5)).2.lruIdx = [("a", 0)] :=
  ⟨rfl, rfl, rfl⟩

/-- C6 (amended): a fault-free `lruGet` on a key present in the cache but
absent from the LRU index returns the value AND appends the key to the LRU
index with the current time as its score (the access-stamp write is an
upsert, which inserts missing members). -/
theorem c6_lruGet_adds_unindexed_key (key : String) (maxSize : Nat) (e : Entry)
    (s : Store) (hf : s.faults = []) (hkv : kvLookup key s.kv = some e)
    (hz : zScore key s.lruIdx = none) :
    (lruGet key maxSize s).1 = .ok (some e.value) ∧
    (lruGet key maxSize s).2.lruIdx = s.lruIdx ++ [(key, s.now)] := by
  have h1 := lruGet_nf_hit key maxSize e s hf hkv
  rw [h1]
  exact ⟨rfl, zUpsert_fresh key s.now s.lruIdx hz⟩

/-- Witness for C6 (amended) at the counterexample input. -/
theorem c6_witness :
    (lruGet "a" 100 (preloaded "a" (.vNum 7) 5)).1 = .ok (some (.vNum 7)) ∧
    (lruGet "a" 100 (preloaded "a" (.vNum 7) 5)).2.lruIdx
        = (preloaded "a" (.vNum 7) 5).lruIdx ++ [("a", (preloaded "a" (.vNum 7) 5).now)] :=
  c6_lruGet_adds_unindexed_key "a" 100 ⟨.vNum 7, 5⟩ (preloaded "a" (.vNum 7) 5)
    rfl rfl rfl

/-- C9: `readThrough` is functionally equivalent to `cacheAside`: for every
key, loader, ttl and store state (hit, miss with truthy or falsy loader
value, throwing loader, and any fault schedule alike) the two functions
return the same result and leave the store in the same state. -/
theorem c9_readThrough_equals_cacheAside (key : String)
    (dataFetcher : Except Unit JsVal) (ttl : Nat) (s : Store) :
    readThrough key dataFetcher ttl s = cacheAside key dataFetcher ttl s :=
  readThrough_eq_cacheAside key dataFetcher ttl s

/-- C4: a fault-free `lfuGet` on a key present in the cache returns the
cached payload and raises that key's frequency score in the LFU index by
exactly 1 (a missing record counts as frequency 0); consequently, in the
concrete scenario — A and B inserted via `lfuSet` under `maxSize = 2`, A
read three times, B never — inserting C evicts B (B's entry and LFU record
are gone, A and C remain). -/
theorem c4_lfuGet_increments_frequency (key : String) (e : Entry) (s : Store)
    (hf : s.faults = []) (hkv : kvLookup key s.kv = some e) :
    ((lfuGet key s).1 = .ok (some e.value) ∧
     zScore key (lfuGet key s).2.lfuIdx = some ((zScore key s.lfuIdx).getD 0 + 1)) ∧
    (kvLookup "B" lfuScenario.kv = none ∧
     zScore "B" lfuScenario.lfuIdx = none ∧
     kvLookup "A" lfuScenario.kv = some ⟨.vNum 1, 60⟩ ∧
     kvLookup "C" lfuScenario.kv = some ⟨.vNum 3, 60⟩) := by
  constructor
  · have h1 := lfuGet_nf_hit key e s hf hkv
    rw [h1]
    exact ⟨rfl, zScore_zIncr_self key 1 s.lfuIdx⟩
  · exact ⟨rfl, rfl, rfl, rfl⟩

/-- Witness for C4 at key `"k"` cached with value `5`. -/
theorem c4_witness :
    ((lfuGet "k" (preloaded "k" (.vNum 5) 10)).1 = .ok (some (.vNum 5)) ∧
     zScore "k" (lfuGet "k" (preloaded "k" (.vNum 5) 10)).2.lfuIdx
        = some ((zScore "k" (preloaded "k" (.vNum 5) 10).lfuIdx).getD 0 + 1)) ∧
    (kvLookup "B" lfuScenario.kv = none ∧
     zScore "B" lfuScenario.lfuIdx = none ∧
     kvLookup "A" lfuScenario.kv = some ⟨.vNum 1, 60⟩ ∧
     kvLookup "C" lfuScenario.kv = some ⟨.vNum 3, 60⟩) :=
  c4_lfuGet_increments_frequency "k" ⟨.vNum 5, 10⟩ (preloaded "k" (.vNum 5) 10)
    rfl rfl

/-- C7 counterexample: from a store where `"k"` is cached with value `5`
and the counter keys are absent, a `cacheAside` read of `"k"` is a hit (it
returns the cached `5`, ignoring the loader's `9`) — yet `getStats`
afterwards still reports `hits = 0` and `misses = 0`: the hit incremented
no counter, refuting "every cache hit increments the hits counter". -/
theorem c7_counterexample :
    (cacheAside "k" (.ok (.vNum 9)) 10 (preloaded "k" (.vNum 5) 10)).1
        = .ok (.vNum 5) ∧
    (getStats (cacheAside "k" (.ok (.vNum 9)) 10 (preloaded "k" (.vNum 5) 10)).2).1
        = .ok (some ⟨.vNum 0, .vNum 0, 0, 0⟩) :=
  ⟨rfl, rfl⟩

/-- C7 (amended): `getStats` merely reports the raw stored values of the
keys `cache_hits` / `cache_misses` (0 when absent) together with the index
populations, and the read strategies `cacheAside` and `readThrough` never
write those keys (hits and misses are only logged to the console), so the
reported counters are unchanged by any fault-free read-strategy call on an
ordinary cache key. -/
theorem c7_stats_counters_never_updated (key : String)
    (dataFetcher : Except Unit JsVal) (ttl : Nat) (s : Store)
    (hf : s.faults = []) (h1 : key ≠ "cache_hits") (h2 : key ≠ "cache_misses") :
    getStats s =
      (.ok (some ⟨orZero (kvLookup "cache_hits" s.kv),
        orZero (kvLookup "cache_misses" s.kv),
        s.lruIdx.length, s.lfuIdx.length⟩), s) ∧
    kvLookup "cache_hits" (cacheAside key dataFetcher ttl s).2.kv
        = kvLookup "cache_hits" s.kv ∧
    kvLookup "cache_misses" (cacheAside key dataFetcher ttl s).2.kv
        = kvLookup "cache_misses" s.kv ∧
    kvLookup "cache_hits" (readThrough key dataFetcher ttl s).2.kv
        = kvLookup "cache_hits" s.kv ∧
    kvLookup "cache_misses" (readThrough key dataFetcher ttl s).2.kv
        = kvLookup "cache_misses" s.kv := by
  refine ⟨getStats_nf s hf, ?_, ?_, ?_, ?_⟩
  · exact cacheAside_preserves_other_keys key "cache_hits" dataFetcher ttl s hf h1
  · exact cacheAside_preserves_other_keys key "cache_misses" dataFetcher ttl s hf h2
  · rw [readThrough_eq_cacheAside]
    exact cacheAside_preserves_other_keys key "cache_hits" dataFetcher ttl s hf h1
  · rw [readThrough_eq_cacheAside]
    exact cacheAside_preserves_other_keys key "cache_misses" dataFetcher ttl s hf h2

/-- Witness for C7 (amended) at the counterexample input (a hit on `"k"`). -/
theorem c7_witness :
    getStats (preloaded "k" (.vNum 5) 10) =
      (.ok (some ⟨orZero (kvLookup "cache_hits" (preloaded "k" (.vNum 5) 10).kv),
        orZero (kvLookup "cache_misses" (preloaded "k" (.vNum 5) 10).kv),
        (preloaded "k" (.vNum 5) 10).lruIdx.length,
        (preloaded "k" (.vNum 5) 10).lfuIdx.length⟩), preloaded "k" (.vNum 5) 10) ∧
    kvLookup "cache_hits"
      (cacheAside "k" (.ok (.vNum 9)) 10 (preloaded "k" (.vNum 5) 10)).2.kv
        = kvLookup "cache_hits" (preloaded "k" (.vNum 5) 10).kv ∧
    kvLookup "cache_misses"
      (cacheAside "k" (.ok (.vNum 9)) 10 (preloaded "k" (.vNum 5) 10)).2.kv
        = kvLookup "cache_misses" (preloaded "k" (.vNum 5) 10).kv ∧
    kvLookup "cache_hits"
      (readThrough "k" (.ok (.vNum 9)) 10 (preloaded "k" (.vNum 5) 10)).2.kv
        = kvLookup "cache_hits" (preloaded "k" (.vNum 5) 10).kv ∧
    kvLookup "cache_misses"
      (readThrough "k" (.ok (.vNum 9)) 10 (preloaded "k" (.vNum 5) 10)).2.kv
        = kvLookup "cache_misses" (preloaded "k" (.vNum 5) 10).kv :=
  c7_stats_counters_never_updated "k" (.ok (.vNum 9)) 10
    (preloaded "k" (.vNum 5) 10) rfl (by decide) (by decide)

/-- C8: a fault-free `writeBack` caches the value under the key with expiry
`ttl`, adds the key to the dirty set, and returns the value immediately —
its result and store are independent of the persistence function, which is
only captured in the scheduled deferred task.  When the deferred task later
runs: a successful persistence removes the dirty marker, a failing one
leaves the store (and hence the dirty marker) untouched. -/
theorem c8_writeBack_deferred_persistence (key : String) (data : JsVal)
    (dbWriter : JsVal → Except Unit JsVal) (ttl : Nat) (s : Store)
    (hf : s.faults = []) :
    (writeBack key data dbWriter ttl s).1.1 = .ok data ∧
    kvLookup key (writeBack key data dbWriter ttl s).1.2.kv = some ⟨data, ttl⟩ ∧
    key ∈ (writeBack key data dbWriter ttl s).1.2.dirty ∧
    (∀ dbW2 : JsVal → Except Unit JsVal,
      (writeBack key data dbW2 ttl s).1 = (writeBack key data dbWriter ttl s).1) ∧
    (writeBack key data dbWriter ttl s).2 = [⟨key, data, dbWriter⟩] ∧
    (∀ w : JsVal, dbWriter data = .ok w →
      key ∉ (runPending ⟨key, data, dbWriter⟩
        (writeBack key data dbWriter ttl s).1.2).dirty) ∧
    (dbWriter data = .error () →
      key ∈ (runPending ⟨key, data, dbWriter⟩
        (writeBack key data dbWriter ttl s).1.2).dirty) := by
  have hwb : ∀ dbW : JsVal → Except Unit JsVal,
      writeBack key data dbW ttl s =
        ((.ok data,
          { s with kv := kvSet key ⟨data, ttl⟩ s.kv,
                   dirty := if key ∈ s.dirty then s.dirty else s.dirty ++ [key] }),
         [⟨key, data, dbW⟩]) := by
    intro dbW
    unfold writeBack
    rw [rSetEx_nf key ttl data s hf]
    dsimp only
    rw [rSAddDirty_nf key { s with kv := kvSet key ⟨data, ttl⟩ s.kv } hf]
  have hmem : key ∈ (writeBack key data dbWriter ttl s).1.2.dirty := by
    rw [hwb dbWriter]
    by_cases hd : key ∈ s.dirty <;> simp [hd]
  refine ⟨by rw [hwb dbWriter], ?_, hmem, ?_, by rw [hwb dbWriter], ?_, ?_⟩
  · rw [hwb dbWriter]
    exact kvLookup_kvSet_self key ⟨data, ttl⟩ s.kv
  · intro dbW2
    rw [hwb dbW2, hwb dbWriter]
  · intro w hok
    rw [hwb dbWriter]
    unfold runPending
    dsimp only
    rw [hok]
    rw [rSRemDirty_nf key
      { s with kv := kvSet key ⟨data, ttl⟩ s.kv,
               dirty := if key ∈ s.dirty then s.dirty else s.dirty ++ [key] } hf]
    simp [List.mem_filter]
  · intro herr
    unfold runPending
    dsimp only
    rw [herr]
    exact hmem

/-- Witness for C8 at key `"k"`, value `7`, with an always-succeeding and
an always-failing persistence function. -/
theorem c8_witness :
    (writeBack "k" (.vNum 7) (fun x => .ok x) 5 emptyStore).1.1 = .ok (.vNum 7) ∧
    kvLookup "k" (writeBack "k" (.vNum 7) (fun x => .ok x) 5 emptyStore).1.2.kv
        = some ⟨.vNum 7, 5⟩ ∧
    "k" ∈ (writeBack "k" (.vNum 7) (fun x => .ok x) 5 emptyStore).1.2.dirty ∧
    "k" ∉ (runPending ⟨"k", .vNum 7, fun x => .ok x⟩
        (writeBack "k" (.vNum 7) (fun x => .ok x) 5 emptyStore).1.2).dirty ∧
    "k" ∈ (runPending ⟨"k", .vNum 7, fun _ => .error ()⟩
        (writeBack "k" (.vNum 7) (fun _ => .error ()) 5 emptyStore).1.2).dirty :=
  ⟨(c8_writeBack_deferred_persistence "k" (.vNum 7) (fun x => .ok x) 5 emptyStore rfl).1,
   (c8_writeBack_deferred_persistence "k" (.vNum 7) (fun x => .ok x) 5 emptyStore rfl).2.1,
   (c8_writeBack_deferred_persistence "k" (.vNum 7) (fun x => .ok x) 5 emptyStore rfl).2.2.1,
   (c8_writeBack_deferred_persistence "k" (.vNum 7) (fun x => .ok x) 5 emptyStore rfl).2.2.2.2.2.1
     (.vNum 7) rfl,
   (c8_writeBack_deferred_persistence "k" (.vNum 7) (fun _ => .error ()) 5 emptyStore rfl).2.2.2.2.2.2
     rfl⟩

/-- Every successful run of the try block of `lruSet` reports `true`: the
only non-throwing terminal of the block is `return true`. -/
theorem lruSetTry_ok_or_error (key : String) (data : JsVal) (ttl maxSize : Nat)
    (s : Store) :
    (lruSetTry key data ttl maxSize s).1 = .ok true ∨
    (lruSetTry key data ttl maxSize s).1 = .error () := by
  unfold lruSetTry
  dsimp only
  repeat' split
  all_goals first | (left; rfl) | (right; rfl)

/-- Every successful run of the try block of `lfuSet` reports `true`. -/
theorem lfuSetTry_ok_or_error (key : String) (data : JsVal) (ttl maxSize : Nat)
    (s : Store) :
    (lfuSetTry key data ttl maxSize s).1 = .ok true ∨
    (lfuSetTry key data ttl maxSize s).1 = .error () := by
  unfold lfuSetTry
  dsimp only
  repeat' split
  all_goals first | (left; rfl) | (right; rfl)

/-- When the very first store round trip (the `zCard` capacity check)
fails, the try block of `lruSet` throws. -/
theorem lruSetTry_firstFault (key : String) (data : JsVal) (ttl maxSize : Nat)
    (s : Store) (rest : List Bool) (h : s.faults = true :: rest) :
    (lruSetTry key data ttl maxSize s).1 = .error () := by
  unfold lruSetTry rZCard popFault
  rw [h]
  rfl

/-- When the very first store round trip fails, the try block of `lfuSet`
throws. -/
theorem lfuSetTry_firstFault (key : String) (data : JsVal) (ttl maxSize : Nat)
    (s : Store) (rest : List Bool) (h : s.faults = true :: rest) :
    (lfuSetTry key data ttl maxSize s).1 = .error () := by
  unfold lfuSetTry rZCard popFault
  rw [h]
  rfl

/-- The catch block of `lruSet` turns exactly the thrown runs into `false`:
the call returns `.ok false` iff its try block threw. -/
theorem lruSet_false_iff_threw (key : String) (data : JsVal) (ttl maxSize : Nat)
    (s : Store) :
    (lruSet key data ttl maxSize s).1 = .ok false ↔
    (lruSetTry key data ttl maxSize s).1 = .error () := by
  have hoe := lruSetTry_ok_or_error key data ttl maxSize s
  unfold lruSet
  rcases hr : lruSetTry key data ttl maxSize s with ⟨r, s'⟩
  rw [hr] at hoe
  rcases r with _ | b
  · simp
  · simp only at hoe ⊢
    rcases hoe with hoe | hoe
    · rw [hoe]
      simp
    · exact absurd hoe (by simp)

/-- The catch block of `lfuSet` turns exactly the thrown runs into
`false`. -/
theorem lfuSet_false_iff_threw (key : String) (data : JsVal) (ttl maxSize : Nat)
    (s : Store) :
    (lfuSet key data ttl maxSize s).1 = .ok false ↔
    (lfuSetTry key data ttl maxSize s).1 = .error () := by
  have hoe := lfuSetTry_ok_or_error key data ttl maxSize s
  unfold lfuSet
  rcases hr : lfuSetTry key data ttl maxSize s with ⟨r, s'⟩
  rw [hr] at hoe
  rcases r with _ | b
  · simp
  · simp only at hoe ⊢
    rcases hoe with hoe | hoe
    · rw [hoe]
      simp
    · exact absurd hoe (by simp)

/-- C10 (implicit): `lruSet` and `lfuSet` never propagate an exception:
for every input and every fault schedule the result is a plain boolean
(`.ok b`); the call returns `.ok false` exactly when some underlying store
operation failed (the try block threw) — in particular, a failure of the
very first round trip, the capacity check, yields `.ok false` — and a
fully successful (fault-free) call returns `.ok true`. -/
theorem c10_lru_lfu_set_swallow_errors (key : String) (data : JsVal)
    (ttl maxSize : Nat) (s : Store) :
    ((∃ b, (lruSet key data ttl maxSize s).1 = .ok b) ∧
     (∃ b, (lfuSet key data ttl maxSize s).1 = .ok b)) ∧
    (((lruSet key data ttl maxSize s).1 = .ok false ↔
        (lruSetTry key data ttl maxSize s).1 = .error ()) ∧
     ((lfuSet key data ttl maxSize s).1 = .ok false ↔
        (lfuSetTry key data ttl maxSize s).1 = .error ())) ∧
    (∀ rest : List Bool, s.faults = true :: rest →
      (lruSet key data ttl maxSize s).1 = .ok false ∧
      (lfuSet key data ttl maxSize s).1 = .ok false) ∧
    (s.faults = [] →
      (lruSet key data ttl maxSize s).1 = .ok true ∧
      (lfuSet key data ttl maxSize s).1 = .ok true) := by
  refine ⟨⟨?_, ?_⟩, ⟨lruSet_false_iff_threw key data ttl maxSize s,
    lfuSet_false_iff_threw key data ttl maxSize s⟩, ?_, ?_⟩
  · unfold lruSet
    rcases lruSetTry key data ttl maxSize s with ⟨r, s'⟩
    rcases r with _ | b
    · exact ⟨false, rfl⟩
    · exact ⟨b, rfl⟩
  · unfold lfuSet
    rcases lfuSetTry key data ttl maxSize s with ⟨r, s'⟩
    rcases r with _ | b
    · exact ⟨false, rfl⟩
    · exact ⟨b, rfl⟩
  · intro rest hft
    exact ⟨(lruSet_false_iff_threw key data ttl maxSize s).mpr
        (lruSetTry_firstFault key data ttl maxSize s rest hft),
      (lfuSet_false_iff_threw key data ttl maxSize s).mpr
        (lfuSetTry_firstFault key data ttl maxSize s rest hft)⟩
  · intro hf
    constructor
    · unfold lruSet
      have h := lruSetTry_nf_ok key data ttl maxSize s hf
      rcases hr : lruSetTry key data ttl maxSize s with ⟨r, s'⟩
      rw [hr] at h
      simp only at h
      subst h
      rfl
    · unfold lfuSet
      have h := lfuSetTry_nf_ok key data ttl maxSize s hf
      rcases hr : lfuSetTry key data ttl maxSize s with ⟨r, s'⟩
      rw [hr] at h
      simp only at h
      subst h
      rfl

/-- Witness for C10 at key `"k"`: a failing capacity check
(`faults = [true]`) and a failing cache write (`faults = [false, true]`,
the `setEx` after a passing below-capacity check) both yield `.ok false`
without throwing, while the fault-free empty store yields `.ok true`. -/
theorem c10_witness :
    (lruSet "k" (.vNum 1) 5 2 ⟨[], [], [], [], 0, [true]⟩).1 = .ok false ∧
    (lfuSet "k" (.vNum 1) 5 2 ⟨[], [], [], [], 0, [true]⟩).1 = .ok false ∧
    (lruSet "k" (.vNum 1) 5 2 ⟨[], [], [], [], 0, [false, true]⟩).1 = .ok false ∧
    (lfuSet "k" (.vNum 1) 5 2 ⟨[], [], [], [], 0, [false, true]⟩).1 = .ok false ∧
    (∃ b, (lruSet "k" (.vNum 1) 5 2 ⟨[], [], [], [], 0, [true]⟩).1 = .ok b) ∧
    (∃ b, (lfuSet "k" (.vNum 1) 5 2 ⟨[], [], [], [], 0, [true]⟩).1 = .ok b) ∧
    (lruSet "k" (.vNum 1) 5 2 emptyStore).1 = .ok true ∧
    (lfuSet "k" (.vNum 1) 5 2 emptyStore).1 = .ok true :=
  ⟨((c10_lru_lfu_set_swallow_errors "k" (.vNum 1) 5 2
      ⟨[], [], [], [], 0, [true]⟩).2.2.1 [] rfl).1,
   ((c10_lru_lfu_set_swallow_errors "k" (.vNum 1) 5 2
      ⟨[], [], [], [], 0, [true]⟩).2.2.1 [] rfl).2,
   ((c10_lru_lfu_set_swallow_errors "k" (.vNum 1) 5 2
      ⟨[], [], [], [], 0, [false, true]⟩).2.1.1).mpr rfl,
   ((c10_lru_lfu_set_swallow_errors "k" (.vNum 1) 5 2
      ⟨[], [], [], [], 0, [false, true]⟩).2.1.2).mpr rfl,
   (c10_lru_lfu_set_swallow_errors "k" (.vNum 1) 5 2
      ⟨[], [], [], [], 0, [true]⟩).1.1,
   (c10_lru_lfu_set_swallow_errors "k" (.vNum 1) 5 2
      ⟨[], [], [], [], 0, [true]⟩).1.2,
   ((c10_lru_lfu_set_swallow_errors "k" (.vNum 1) 5 2 emptyStore).2.2.2 rfl).1,
   ((c10_lru_lfu_set_swallow_errors "k" (.vNum 1) 5 2 emptyStore).2.2.2 rfl).2⟩

/-- C3 counterexample: with `maxSize = 0`, inserting `maxSize + 1 = 1`
distinct key into an empty store via `lruSet` leaves that key retrievable
(1 key cached), not "exactly maxSize = 0" keys: the capacity check evicts
from an empty index (a no-op) and then inserts anyway, so the claim fails
at `maxSize = 0`. -/
theorem c3_counterexample :
    (lruGet "a" 0 (lruInsertAll [("a", .vNum 1)] 5 0 emptyStore)).1
        = .ok (some (.vNum 1)) ∧
    (lruInsertAll [("a", .vNum 1)] 5 0 emptyStore).kv.length = 1 :=
  ⟨rfl, rfl⟩

/-- C3 (amended with `maxSize ≥ 1`, forced by the `maxSize = 0`
counterexample): inserting `maxSize + 1` distinct keys via `lruSet` into an
empty cache leaves exactly `maxSize` keys retrievable via `lruGet`; the
evicted key is the first inserted one, which at eviction time is the single
lowest-scored (least-recently-touched) member of the LRU index; every other
inserted key remains retrievable with its value.  In particular, in the
concrete recency scenario — A then B inserted with `maxSize = 2`, A read
via `lruGet`, then C inserted — C's insertion evicts B, not A. -/
theorem c3_lru_bound_and_recency (ttl : Nat) (k0 : String) (v0 : JsVal)
    (ftail : List (String × JsVal)) (lk : String) (lv : JsVal) (maxSize : Nat)
    (hm : maxSize = ftail.length + 1)
    (hnd : ((((k0, v0) :: ftail) ++ [(lk, lv)]).map Prod.fst).Nodup) :
    ((lruInsertAll (((k0, v0) :: ftail) ++ [(lk, lv)]) ttl maxSize emptyStore).kv.length
        = maxSize ∧
     zMin (lruInsertAll ((k0, v0) :: ftail) ttl maxSize emptyStore).lruIdx
        = some (k0, 0) ∧
     (lruGet k0 maxSize
        (lruInsertAll (((k0, v0) :: ftail) ++ [(lk, lv)]) ttl maxSize emptyStore)).1
        = .ok none ∧
     ∀ p ∈ ftail ++ [(lk, lv)],
       (lruGet p.1 maxSize
         (lruInsertAll (((k0, v0) :: ftail) ++ [(lk, lv)]) ttl maxSize emptyStore)).1
         = .ok (some p.2)) ∧
    ((lruGet "A" 2 lruScenario).1 = .ok (some (.vNum 1)) ∧
     (lruGet "B" 2 lruScenario).1 = .ok none ∧
     (lruGet "C" 2 lruScenario).1 = .ok (some (.vNum 3))) := by
  -- unpack distinctness
  have hnd' := hnd
  simp only [List.cons_append, List.map_cons, List.map_append, List.map_nil,
    List.nodup_cons, List.mem_append, List.mem_singleton, not_or] at hnd'
  obtain ⟨⟨hk0f, hk0l⟩, hndtail⟩ := hnd'
  have hndapp := List.nodup_append.mp hndtail
  have hndf : (ftail.map Prod.fst).Nodup := hndapp.1
  have hlkf : lk ∉ ftail.map Prod.fst := by
    intro hmem
    exact hndapp.2.2 hmem (List.mem_singleton_self lk)
  -- fill phase: the first maxSize inserts proceed without eviction
  have hfill := lruFill ttl maxSize ((k0, v0) :: ftail) emptyStore rfl
    (by simp [emptyStore, hm])
    (by simp only [List.map_cons, List.nodup_cons]; exact ⟨hk0f, hndf⟩)
    (fun p _ => rfl) (fun p _ => rfl)
  have hfill' : lruInsertAll ((k0, v0) :: ftail) ttl maxSize emptyStore =
      ⟨entriesOf ttl ((k0, v0) :: ftail), scoreFrom 0 ((k0, v0) :: ftail),
       [], [], ftail.length + 1, []⟩ := by
    rw [hfill]
    simp [emptyStore]
  -- the filled store
  set sF : Store :=
    ⟨entriesOf ttl ((k0, v0) :: ftail), scoreFrom 0 ((k0, v0) :: ftail),
     [], [], ftail.length + 1, []⟩ with hsF
  -- the overflowing insert evicts k0, the lowest-stamped member
  have hdel : kvDel k0 sF.kv = entriesOf ttl ftail := by
    rw [hsF]
    show kvDel k0 (entriesOf ttl ((k0, v0) :: ftail)) = entriesOf ttl ftail
    have : entriesOf ttl ((k0, v0) :: ftail) = (k0, ⟨v0, ttl⟩) :: entriesOf ttl ftail := rfl
    rw [this, kvDel_cons_self]
    exact kvDel_not_mem k0 (entriesOf ttl ftail)
      (kvLookup_eq_none k0 _ (by rw [entriesOf_keys]; exact hk0f))
  have hrem : zRemove k0 sF.lruIdx = scoreFrom 1 ftail := by
    rw [hsF]
    show zRemove k0 (scoreFrom 0 ((k0, v0) :: ftail)) = scoreFrom 1 ftail
    have : scoreFrom 0 ((k0, v0) :: ftail) = (k0, 0) :: scoreFrom 1 ftail := rfl
    rw [this, zRemove_cons_self]
    exact zRemove_not_mem k0 (scoreFrom 1 ftail)
      (zScore_eq_none k0 _ (by rw [scoreFrom_keys]; exact hk0f))
  have hevict := lruSet_evict lk lv ttl maxSize sF rfl
    (by rw [hsF]; show maxSize ≤ (scoreFrom 0 ((k0, v0) :: ftail)).length
        rw [scoreFrom_length]; simp [hm])
    k0 0
    (by rw [hsF]; exact zMin_scoreFrom 0 k0 v0 ftail)
    (by rw [hdel]
        exact kvLookup_eq_none lk _ (by rw [entriesOf_keys]; exact hlkf))
    (by rw [hrem]
        exact zScore_eq_none lk _ (by rw [scoreFrom_keys]; exact hlkf))
  -- the final store after the overflowing insert
  have hsplit : lruInsertAll (((k0, v0) :: ftail) ++ [(lk, lv)]) ttl maxSize emptyStore
      = (lruSet lk lv ttl maxSize sF).2 := by
    rw [← hfill']
    simp [lruInsertAll, List.foldl_append]
  have hfinal : lruInsertAll (((k0, v0) :: ftail) ++ [(lk, lv)]) ttl maxSize emptyStore
      = { sF with kv := kvDel k0 sF.kv ++ [(lk, ⟨lv, ttl⟩)],
                  lruIdx := zRemove k0 sF.lruIdx ++ [(lk, sF.now)],
                  now := sF.now + 1 } := by
    rw [hsplit, hevict]
  refine ⟨⟨?_, ?_, ?_, ?_⟩, rfl, rfl, rfl⟩
  · -- exactly maxSize keys cached
    rw [hfinal]
    show (kvDel k0 sF.kv ++ [(lk, (⟨lv, ttl⟩ : Entry))]).length = maxSize
    rw [List.length_append, hdel, entriesOf_length]
    simp [hm]
  · -- at eviction time k0 is the single lowest-stamped member
    rw [hfill']
    exact zMin_scoreFrom 0 k0 v0 ftail
  · -- the evicted key is no longer retrievable
    rw [hfinal, lruGet_nf_fst k0 maxSize _ rfl]
    dsimp only
    rw [kvLookup_append, hdel]
    rw [kvLookup_eq_none k0 _ (by rw [entriesOf_keys]; exact hk0f)]
    have hlast : kvLookup k0 [(lk, (⟨lv, ttl⟩ : Entry))] = none := by
      have hne : ¬lk = k0 := fun hh => hk0l hh.symm
      simp [kvLookup, hne]
    rw [hlast]
    rfl
  · -- every other inserted key is retrievable with its value
    intro p hp
    rw [hfinal, lruGet_nf_fst p.1 maxSize _ rfl]
    dsimp only
    rw [kvLookup_append, hdel]
    rcases List.mem_append.mp hp with hp | hp
    · rw [kvLookup_entriesOf ttl ftail hndf p hp]
      rfl
    · rw [List.mem_singleton.mp hp]
      rw [kvLookup_eq_none lk _ (by rw [entriesOf_keys]; exact hlkf)]
      simp [kvLookup]

/-- Witness for C3 at ttl `5`, keys A, B, C with `maxSize = 2`. -/
theorem c3_witness :
    (lruInsertAll ((("A", JsVal.vNum 1) :: [("B", JsVal.vNum 2)]) ++ [("C", JsVal.vNum 3)])
        5 2 emptyStore).kv.length = 2 ∧
    (lruGet "A" 2
      (lruInsertAll ((("A", JsVal.vNum 1) :: [("B", JsVal.vNum 2)]) ++ [("C", JsVal.vNum 3)])
        5 2 emptyStore)).1 = .ok none ∧
    (lruGet "C" 2
      (lruInsertAll ((("A", JsVal.vNum 1) :: [("B", JsVal.vNum 2)]) ++ [("C", JsVal.vNum 3)])
        5 2 emptyStore)).1 = .ok (some (.vNum 3)) :=
  ⟨(c3_lru_bound_and_recency 5 "A" (.vNum 1) [("B", .vNum 2)] "C" (.vNum 3) 2
      rfl (by decide)).1.1,
   (c3_lru_bound_and_recency 5 "A" (.vNum 1) [("B", .vNum 2)] "C" (.vNum 3) 2
      rfl (by decide)).1.2.2.1,
   (c3_lru_bound_and_recency 5 "A" (.vNum 1) [("B", .vNum 2)] "C" (.vNum 3) 2
      rfl (by decide)).1.2.2.2 ("C", .vNum 3) (by decide)⟩
